import Mathlib

/-!
Verification of the TriangularFractalGrowth engine.

The Python sources (geometry.py, state.py, drawing.py, canvas_manager.py,
with GUI.py and gui.py as earlier revisions of the same engine) compute with
floating point numbers whose ideal values all lie in the subfield ℚ[√3] of ℝ:
the only irrational constant entering any computation is sin(60°) = √3/2.
We embed the engine shallowly over the exact ring `Q3` representing
`a + b·√3` by a pair of rationals, which keeps every definition computable
and every concrete trace decidable, and we relate `Q3` to ℝ by the
evaluation map `Q3.toReal` for the order-theoretic statements.
-/

namespace TriGrowth

/-- `a + b·√3` represented exactly by the pair `(a, b)` of rationals. -/
@[ext]
structure Q3 where
  a : ℚ
  b : ℚ
deriving DecidableEq, Repr

namespace Q3

instance : Zero Q3 := ⟨⟨0, 0⟩⟩
instance : One Q3 := ⟨⟨1, 0⟩⟩
instance : Add Q3 := ⟨fun x y => ⟨x.a + y.a, x.b + y.b⟩⟩
instance : Neg Q3 := ⟨fun x => ⟨-x.a, -x.b⟩⟩
instance : Sub Q3 := ⟨fun x y => ⟨x.a - y.a, x.b - y.b⟩⟩

/-- `(a + b√3)(c + d√3) = (ac + 3bd) + (ad + bc)√3`. -/
instance : Mul Q3 := ⟨fun x y => ⟨x.a * y.a + 3 * (x.b * y.b), x.a * y.b + x.b * y.a⟩⟩

@[simp] theorem zero_a : (0 : Q3).a = 0 := rfl

@[simp] theorem zero_b : (0 : Q3).b = 0 := rfl

@[simp] theorem one_a : (1 : Q3).a = 1 := rfl

@[simp] theorem one_b : (1 : Q3).b = 0 := rfl

@[simp] theorem add_a (x y : Q3) : (x + y).a = x.a + y.a := rfl

@[simp] theorem add_b (x y : Q3) : (x + y).b = x.b + y.b := rfl

@[simp] theorem neg_a (x : Q3) : (-x).a = -x.a := rfl

@[simp] theorem neg_b (x : Q3) : (-x).b = -x.b := rfl

@[simp] theorem sub_a (x y : Q3) : (x - y).a = x.a - y.a := rfl

@[simp] theorem sub_b (x y : Q3) : (x - y).b = x.b - y.b := rfl

@[simp] theorem mul_a (x y : Q3) : (x * y).a = x.a * y.a + 3 * (x.b * y.b) := rfl

@[simp] theorem mul_b (x y : Q3) : (x * y).b = x.a * y.b + x.b * y.a := rfl

/-- Embed a rational number. -/
def ofRat (q : ℚ) : Q3 := ⟨q, 0⟩

/-- The evaluation `a + b·√3` in ℝ; it realises `Q3` as the subfield ℚ[√3]. -/
noncomputable def toReal (x : Q3) : ℝ := (x.a : ℝ) + (x.b : ℝ) * Real.sqrt 3

theorem sqrt3_mul_self : Real.sqrt 3 * Real.sqrt 3 = 3 :=
  Real.mul_self_sqrt (by norm_num)

@[simp] theorem toReal_zero : (0 : Q3).toReal = 0 := by simp [toReal]

@[simp] theorem toReal_add (x y : Q3) : (x + y).toReal = x.toReal + y.toReal := by
  simp [toReal]; ring

@[simp] theorem toReal_sub (x y : Q3) : (x - y).toReal = x.toReal - y.toReal := by
  simp [toReal]; ring

@[simp] theorem toReal_mul (x y : Q3) : (x * y).toReal = x.toReal * y.toReal := by
  simp only [toReal, mul_a, mul_b]
  push_cast
  linear_combination (-(x.b : ℝ)) * (y.b : ℝ) * sqrt3_mul_self

theorem irrational_sqrt3 : Irrational (Real.sqrt 3) := by
  have h : Irrational (Real.sqrt (3 : ℕ)) := (by norm_num : Nat.Prime 3).irrational_sqrt
  simpa using h

theorem toReal_eq_zero {x : Q3} (h : x.toReal = 0) : x = 0 := by
  rcases eq_or_ne x.b 0 with hb | hb
  · have ha : (x.a : ℝ) = 0 := by simpa [toReal, hb] using h
    ext
    · rw [zero_a]; exact_mod_cast ha
    · rw [zero_b]; exact hb
  · exfalso
    apply irrational_sqrt3
    refine ⟨-x.a / x.b, ?_⟩
    have hbR : (x.b : ℝ) ≠ 0 := by exact_mod_cast hb
    push_cast
    field_simp
    have := h
    simp only [toReal] at this
    linarith

theorem toReal_injective : Function.Injective toReal := by
  intro x y h
  have : (x - y).toReal = 0 := by rw [toReal_sub, h, sub_self]
  have hxy := toReal_eq_zero this
  have : x - y + y = 0 + y := by rw [hxy]
  ext
  · have := congrArg Q3.a this; simpa using this
  · have := congrArg Q3.b this; simpa using this

/-- Decides `0 ≤ a + b·√3` by rational sign analysis (comparing `a²` with
`3b²` when the two terms have opposite signs). -/
def nonnegB (x : Q3) : Bool :=
  if 0 ≤ x.a then
    if 0 ≤ x.b then true
    else decide (3 * x.b ^ 2 ≤ x.a ^ 2)
  else
    if 0 ≤ x.b then decide (x.a ^ 2 ≤ 3 * x.b ^ 2)
    else false

theorem sqrt3_pos : (0 : ℝ) < Real.sqrt 3 := Real.sqrt_pos.mpr (by norm_num)

/-- `nonnegB` is the decidable mirror of `0 ≤ toReal`. -/
theorem nonnegB_iff (x : Q3) : x.nonnegB = true ↔ 0 ≤ x.toReal := by
  have h3 := sqrt3_mul_self
  have hpos := sqrt3_pos
  obtain ⟨a, b⟩ := x
  simp only [nonnegB, toReal]
  rcases le_or_lt 0 a with ha | ha <;> rcases le_or_lt 0 b with hb | hb
  · simp only [if_pos ha, if_pos hb]
    constructor
    · intro _
      have h1 : (0 : ℝ) ≤ (b : ℝ) * Real.sqrt 3 := by positivity
      have h2 : (0 : ℝ) ≤ (a : ℝ) := by exact_mod_cast ha
      linarith
    · intro _; trivial
  · simp only [if_pos ha, if_neg (not_le.mpr hb), decide_eq_true_eq]
    have haR : (0 : ℝ) ≤ (a : ℝ) := by exact_mod_cast ha
    have hbR : (b : ℝ) < 0 := by exact_mod_cast hb
    constructor
    · intro hsq
      have hsqR : 3 * (b : ℝ) ^ 2 ≤ (a : ℝ) ^ 2 := by exact_mod_cast hsq
      nlinarith [mul_pos (neg_pos.mpr hbR) hpos]
    · intro hle
      have hd : (0 : ℝ) ≤ (a : ℝ) - (b : ℝ) * Real.sqrt 3 := by
        nlinarith [mul_pos (neg_pos.mpr hbR) hpos]
      have : 3 * (b : ℝ) ^ 2 ≤ (a : ℝ) ^ 2 := by nlinarith [mul_nonneg hle hd]
      exact_mod_cast this
  · simp only [if_neg (not_le.mpr ha), if_pos hb, decide_eq_true_eq]
    have haR : (a : ℝ) < 0 := by exact_mod_cast ha
    have hbR : (0 : ℝ) ≤ (b : ℝ) := by exact_mod_cast hb
    constructor
    · intro hsq
      have hsqR : (a : ℝ) ^ 2 ≤ 3 * (b : ℝ) ^ 2 := by exact_mod_cast hsq
      nlinarith [mul_nonneg hbR hpos.le]
    · intro hle
      have hd : (0 : ℝ) ≤ (b : ℝ) * Real.sqrt 3 - (a : ℝ) := by
        nlinarith [mul_nonneg hbR hpos.le]
      have : (a : ℝ) ^ 2 ≤ 3 * (b : ℝ) ^ 2 := by nlinarith [mul_nonneg hle hd]
      exact_mod_cast this
  · simp only [if_neg (not_le.mpr ha), if_neg (not_le.mpr hb)]
    constructor
    · intro h; cases h
    · intro hle
      exfalso
      have haR : (a : ℝ) < 0 := by exact_mod_cast ha
      have hbR : (b : ℝ) < 0 := by exact_mod_cast hb
      nlinarith [mul_pos (neg_pos.mpr hbR) hpos]

/-- Boolean `x ≤ y` on `Q3` (via `nonnegB`). -/
def leB (x y : Q3) : Bool := nonnegB (y - x)

/-- Boolean `x < n` against an integer. -/
def ltIntB (x : Q3) (n : ℤ) : Bool := !(nonnegB (x - ⟨(n : ℚ), 0⟩))

/-- Binary search for `⌊√n⌋` on `[lo, hi]`, maintaining `lo² ≤ n`; the fuel
only bounds the number of halving steps (the search stops on `hi ≤ lo`), so
calling it with fuel `n + 1` always runs to completion. -/
def isqrtGo (n : ℕ) : ℕ → ℕ → ℕ → ℕ
  | 0, lo, _ => lo
  | fuel + 1, lo, hi =>
    if hi ≤ lo then lo
    else
      let mid := (lo + hi + 1) / 2
      if mid * mid ≤ n then isqrtGo n fuel mid hi else isqrtGo n fuel lo (mid - 1)

/-- `⌊√n⌋` for a natural number, by binary search. -/
def isqrtN (n : ℕ) : ℕ := isqrtGo n (n + 1) 0 n

/-- `⌊√r⌋` for a nonnegative rational `r = p/q`, via `√(p/q) = √(pq)/q` and
`⌊√(pq)/q⌋ = ⌊√(pq)⌋ / q` (integer division). Returns 0 below 0. -/
def ratSqrtFloorNum (r : ℚ) : ℤ :=
  ((isqrtN (r.num.toNat * r.den) / r.den : ℕ) : ℤ)

/-- `⌊a + b√3⌋` computed exactly: with `s = ⌊b√3⌋` (from `Nat.sqrt` on `3b²`,
negated-and-shifted when `b < 0`), the value lies in `[⌊a⌋+s, ⌊a⌋+s+2)`, so
the floor is one of two candidates, decided by an exact comparison. -/
def floorQ3 (x : Q3) : ℤ :=
  let s : ℤ :=
    if 0 ≤ x.b then ratSqrtFloorNum (3 * x.b ^ 2)
    else if x.b = 0 then 0 else -(ratSqrtFloorNum (3 * x.b ^ 2) + 1)
  let base : ℤ := ⌊x.a⌋ + s
  if ltIntB x (base + 1) then base else base + 1

/-- Python `round()` (round-half-to-even) on the exact value: `a + b√3` with
`b ≠ 0` is irrational, hence never a half-integer, and rounds to
`⌊x + 1/2⌋`; rational values use the banker's tie-break. -/
def pyRound (x : Q3) : ℤ :=
  if x.b = 0 then
    let n := ⌊x.a + 1 / 2⌋
    if x.a + 1 / 2 = (n : ℚ) then (if Even n then n else n - 1) else n
  else floorQ3 (x + ⟨1 / 2, 0⟩)

end Q3

/-- A 2D point, as in the Python tuples `(x, y)`. -/
abbrev Pt2 := Q3 × Q3

/-- A 3D point `(x, y, z)`. -/
abbrev Pt3 := Q3 × Q3 × Q3

/-- Shorthand for a rational-valued coordinate. -/
def qr (n : ℚ) : Q3 := ⟨n, 0⟩

/-! ## geometry.py -/

/-- geometry.third_vertex: rotate the vector `q − p` by `60°·side` and add it
to `p`; `side` is the Python `+1` (left) or `−1` (right), and
`cos(±60°) = 1/2`, `sin(60°·side) = side·√3/2` exactly. -/
def third_vertex (p q : Pt2) (side : ℤ) : Pt2 :=
  let vx := q.1 - p.1
  let vy := q.2 - p.2
  let cosA : Q3 := ⟨1 / 2, 0⟩
  let sinA : Q3 := ⟨0, (side : ℚ) / 2⟩
  let rx := vx * cosA - vy * sinA
  let ry := vx * sinA + vy * cosA
  (p.1 + rx, p.2 + ry)

/-- Rational-coordinate points, for the two convex-hull routines (their hull
tests and the GUI call sites feed them plain canvas coordinates). -/
abbrev PtQ := ℚ × ℚ

/-- The 2D cross product `(a−o) × (b−o)` used by both hull routines. -/
def crossQ (o p q : PtQ) : ℚ :=
  (p.1 - o.1) * (q.2 - o.2) - (p.2 - o.2) * (q.1 - o.1)

/-- Lexicographic tuple order, as Python `sorted` uses on point tuples. -/
def ptLeQ (p q : PtQ) : Prop := p.1 < q.1 ∨ (p.1 = q.1 ∧ p.2 ≤ q.2)

instance : DecidableRel ptLeQ := fun p q => by unfold ptLeQ; infer_instance

/-- The inner `while ... lower.pop()` loop of geometry.convex_hull, with the
hull-in-progress stored most-recent-first; pops while the previous two points
and `p` make a strictly clockwise turn (`cross < 0`). -/
def popChainLt (p : PtQ) : List PtQ → List PtQ
  | b :: a :: rest => if crossQ a b p < 0 then popChainLt p (a :: rest) else b :: a :: rest
  | l => l

/-- One monotone-chain pass of geometry.convex_hull (result in input order). -/
def chainLt (pts : List PtQ) : List PtQ :=
  (pts.foldl (fun acc p => p :: popChainLt p acc) []).reverse

/-- geometry.convex_hull: inputs of fewer than 3 points are returned
unchanged (a copy); otherwise monotone chain over the sorted points, popping
on strictly negative cross products only. -/
def convex_hull (points : List PtQ) : List PtQ :=
  if points.length < 3 then points
  else
    let pts := points.mergeSort (fun p q => decide (ptLeQ p q))
    (chainLt pts).dropLast ++ (chainLt pts.reverse).dropLast

/-- The pop loop of GUI.TriGrowthApp._convex_hull, which pops on `cross ≤ 0`
(collinear points removed as well). -/
def popChainLe (p : PtQ) : List PtQ → List PtQ
  | b :: a :: rest => if crossQ a b p ≤ 0 then popChainLe p (a :: rest) else b :: a :: rest
  | l => l

/-- One monotone-chain pass of GUI.TriGrowthApp._convex_hull. -/
def chainLe (pts : List PtQ) : List PtQ :=
  (pts.foldl (fun acc p => p :: popChainLe p acc) []).reverse

/-- GUI.TriGrowthApp._convex_hull (the v0.9 revision): expects its input
already sorted (its caller passes `sorted(pts)`), returns inputs of length
≤ 1 unchanged, and pops on `cross ≤ 0`. -/
def GUI_convex_hull (pts : List PtQ) : List PtQ :=
  if pts.length ≤ 1 then pts
  else (chainLe pts).dropLast ++ (chainLe pts.reverse).dropLast

/-! ## state.py -/

abbrev Tag := String

/-- state.LayerState.  `redo` models the deque used as a stack (append and
pop at the right end, so the most recent entry is last); `undone` models the
Python set of hidden tags as a duplicate-free list.  `left3d`/`right3d` are
the 3D branch snapshots canvas_manager.py stores on the same object. -/
structure LayerState where
  rows : List (List Pt2)
  tags : List Tag
  redo : List (List Pt2 × Tag)
  undone : List Tag
  left_branch : Option (List Pt2)
  right_branch : Option (List Pt2)
  left3d : Option (List Pt3)
  right3d : Option (List Pt3)
  seed_locked : Bool
deriving DecidableEq, Repr

/-- The freshly constructed LayerState(). -/
def LayerState.init : LayerState :=
  ⟨[], [], [], [], none, none, none, none, false⟩

/-- LayerState.push: append the row and tag; a new generation kills redo. -/
def LayerState.push (st : LayerState) (row : List Pt2) (tag : Tag) : LayerState :=
  { st with rows := st.rows ++ [row], tags := st.tags ++ [tag], redo := [] }

/-- LayerState.pop: no-op (returning None) unless more than the seed row
exists; otherwise move the last row and tag onto the redo stack, unlocking
the seed when only the seed row remains. -/
def LayerState.pop (st : LayerState) : Option Tag × LayerState :=
  if st.rows.length ≤ 1 then (none, st)
  else
    let row := st.rows.getLastD []
    let tag := st.tags.getLastD ""
    (some tag,
     { st with rows := st.rows.dropLast, tags := st.tags.dropLast,
               redo := st.redo ++ [(row, tag)],
               seed_locked := if st.rows.dropLast.length = 1 then false else st.seed_locked })

/-- LayerState.redo_layer: no-op (returning None) on an empty redo stack;
otherwise re-push the most recently undone row and tag and relock the seed. -/
def LayerState.redo_layer (st : LayerState) : Option Tag × LayerState :=
  match st.redo.getLast? with
  | none => (none, st)
  | some rt =>
      (some rt.2,
       { st with rows := st.rows ++ [rt.1], tags := st.tags ++ [rt.2],
                 redo := st.redo.dropLast, seed_locked := true })

/-! ## drawing.py and the canvas

Only what the engine observes of the Tk canvas is modelled: each created
item keeps its coordinates, its tags and its hidden/normal state.  Colours,
stroke widths and the oval/line distinction are pure rendering attributes
(spec §1 excludes the rendering backend); no modelled code path reads them
back (`update_hull` reads only items tagged 'tri', which are always lines).
-/

structure Item where
  coords : List Q3
  tags : List Tag
  hidden : Bool
deriving DecidableEq, Repr

/-- drawing.DOT_R. -/
def DOT_R : Q3 := ⟨3, 0⟩

/-- canvas.create_line(x1, y1, x2, y2, tags=...). -/
def create_line (items : List Item) (x1 y1 x2 y2 : Q3) (tags : List Tag) : List Item :=
  items ++ [⟨[x1, y1, x2, y2], tags, false⟩]

/-- drawing.draw_point: an oval of radius DOT_R tagged (tag, 'dot'). -/
def draw_point (items : List Item) (x y : Q3) (tag : Tag) : List Item :=
  items ++ [⟨[x - DOT_R, y - DOT_R, x + DOT_R, y + DOT_R], [tag, "dot"], false⟩]

/-- drawing.draw_triangle: the base edge p→q is tagged (tag, 'row'); only
the two new edges q→r and r→p are tagged (tag, 'tri'); the new vertex gets
a dot. -/
def draw_triangle (items : List Item) (p q r : Pt2) (tag : Tag) : List Item :=
  let i1 := create_line items p.1 p.2 q.1 q.2 [tag, "row"]
  let i2 := create_line i1 q.1 q.2 r.1 r.2 [tag, "tri"]
  let i3 := create_line i2 r.1 r.2 p.1 p.2 [tag, "tri"]
  draw_point i3 r.1 r.2 tag

/-- canvas.itemconfigure(tag, state=...): set the hidden flag of every item
carrying the tag. -/
def configTag (items : List Item) (t : Tag) (hid : Bool) : List Item :=
  items.map fun it => if t ∈ it.tags then { it with hidden := hid } else it

/-! ## canvas_manager.py -/

/-- The growth-mode radio selector. -/
inductive Side
  | LEFT
  | RIGHT
  | BOTH
deriving DecidableEq, Repr

/-- canvas_manager.CanvasManager: the 2D LayerState plus the 3D bookkeeping
(`layers_3d`, `triangles_3d`), the canvas items, and the four visibility
checkbox values the controller exposes on the manager. -/
structure CM where
  state : LayerState
  layers_3d : List (List Pt3)
  triangles_3d : List (Pt3 × Pt3 × Pt3)
  items : List Item
  v_dots : Bool
  v_rows : Bool
  v_tris : Bool
  v_hull : Bool
deriving DecidableEq, Repr

/-- A freshly constructed manager with all visibility boxes checked. -/
def CM.init : CM := ⟨LayerState.init, [], [], [], true, true, true, true⟩

/-- CanvasManager.update_visibility: four kind-tag itemconfigure calls, then
every tag in `undone` is forced hidden. -/
def update_visibility (cm : CM) : CM :=
  let items := configTag cm.items "dot" (!cm.v_dots)
  let items := configTag items "row" (!cm.v_rows)
  let items := configTag items "tri" (!cm.v_tris)
  let items := configTag items "hull" (!cm.v_hull)
  let items := cm.state.undone.foldl (fun its t => configTag its t true) items
  { cm with items := items }

/-- Integer (rounded) canvas points and undirected edges, as update_hull
compares them. -/
abbrev IPt := ℤ × ℤ

abbrev IEdge := IPt × IPt

/-- Lexicographic order on integer points (Python tuple comparison). -/
def iptLe (p q : IPt) : Bool :=
  decide (p.1 < q.1) || (decide (p.1 = q.1) && decide (p.2 ≤ q.2))

/-- `tuple(sorted((p, q)))`: the canonical form of an undirected edge. -/
def canonEdge (p q : IPt) : IEdge := if iptLe p q then (p, q) else (q, p)

/-- The integer-rounded endpoint pairs of all canvas items tagged 'tri'
(`cv.find_withtag` returns hidden items as well). -/
def triEdges (items : List Item) : List (IPt × IPt) :=
  (items.filter fun it => it.tags.contains "tri").map fun it =>
    match it.coords with
    | [x1, y1, x2, y2] =>
        ((x1.pyRound, y1.pyRound), (x2.pyRound, y2.pyRound))
    | _ => ((0, 0), (0, 0))
    -- unreachable: every 'tri' item is a line created with 4 coordinates

/-- `edge_cnt[key] = edge_cnt.get(key, 0) + 1` on an insertion-ordered
association list (a Python dict). -/
def bump (m : List (IEdge × ℕ)) (k : IEdge) : List (IEdge × ℕ) :=
  match m with
  | [] => [(k, 1)]
  | en :: rest => if en.1 = k then (en.1, en.2 + 1) :: rest else en :: bump rest k

/-- Step 1 of update_hull: occurrence counts of the undirected 'tri' edges,
in first-occurrence order. -/
def edge_cnt (items : List Item) : List (IEdge × ℕ) :=
  (triEdges items).foldl (fun m pq => bump m (canonEdge pq.1 pq.2)) []

/-- Step 2 of update_hull: the edges occurring exactly once. -/
def boundary_of (items : List Item) : List IEdge :=
  ((edge_cnt items).filter fun en => en.2 == 1).map fun en => en.1

/-- `adj.setdefault(p, []).append(q)` on an insertion-ordered association
list. -/
def adjIns (adj : List (IPt × List IPt)) (p q : IPt) : List (IPt × List IPt) :=
  match adj with
  | [] => [(p, [q])]
  | vn :: rest => if vn.1 = p then (vn.1, vn.2 ++ [q]) :: rest else vn :: adjIns rest p q

/-- Step 3 of update_hull: the vertex adjacency map of the boundary edges. -/
def adj_of (boundary : List IEdge) : List (IPt × List IPt) :=
  boundary.foldl (fun adj e => adjIns (adjIns adj e.1 e.2) e.2 e.1) []

/-- `adj[v]` (defaulting to the empty neighbour list). -/
def adjGet (adj : List (IPt × List IPt)) (v : IPt) : List IPt :=
  match adj.find? fun vn => vn.1 == v with
  | some vn => vn.2
  | none => []

/-- Every undirected edge the walk can ever visit: the canonical edges of
all adjacency entries. -/
def edgesOfAdj (adj : List (IPt × List IPt)) : List IEdge :=
  adj.flatMap fun vn => vn.2.map fun n => canonEdge vn.1 n

/-- The inner `while True` walk of update_hull, with explicit fuel: follow
the first unvisited incident edge, mark it visited, stop on exhaustion or on
returning to the start.  Each productive iteration marks one previously
unvisited edge, so fuel `(edgesOfAdj adj).length + 1` never runs out. -/
def walkLoop (adj : List (IPt × List IPt)) :
    ℕ → List IEdge → List IPt → IPt → IPt → List IPt × List IEdge
  | 0, visited, loop, _, _ => (loop, visited)
  | fuel + 1, visited, loop, start, curr =>
    match (adjGet adj curr).find? fun n => !(visited.contains (canonEdge curr n)) with
    | none => (loop, visited)
    | some n =>
        let visited2 := canonEdge curr n :: visited
        if n = start then (loop, visited2)
        else walkLoop adj fuel visited2 (loop ++ [n]) start n

/-- Step 4 of update_hull: walk all boundary loops (in adjacency-map key
order), keeping only loops of more than 2 vertices, each closed by
re-appending its start. -/
def hullLoops (boundary : List IEdge) : List (List IPt) :=
  let adj := adj_of boundary
  let fuel := (edgesOfAdj adj).length + 1
  ((adj.map fun vn => vn.1).foldl
    (fun acc start =>
      if (adjGet adj start).all fun n => acc.2.contains (canonEdge start n) then acc
      else
        let lw := walkLoop adj fuel acc.2 [start] start start
        if 2 < lw.1.length then (acc.1 ++ [lw.1 ++ [start]], lw.2) else (acc.1, lw.2))
    (([] : List (List IPt)), ([] : List IEdge))).1

/-- Step 5 of update_hull: draw each loop as consecutive 'hull' lines. -/
def drawHullItems (items : List Item) (loops : List (List IPt)) : List Item :=
  loops.foldl
    (fun its loop =>
      (loop.zip loop.tail).foldl
        (fun its2 pq =>
          create_line its2 (qr pq.1.1) (qr pq.1.2) (qr pq.2.1) (qr pq.2.2) ["hull"])
        its)
    items

/-- CanvasManager.update_hull: delete the old 'hull' items, count 'tri'
edges, and if at least 3 boundary edges exist walk and draw the loops
(the scrollregion update is pure rendering and is not modelled); either way
finish with update_visibility. -/
def update_hull (cm : CM) : CM :=
  let cm1 : CM := { cm with items := cm.items.filter fun it => !(it.tags.contains "hull") }
  let boundary := boundary_of cm1.items
  if boundary.length < 3 then update_visibility cm1
  else
    update_visibility { cm1 with items := drawHullItems cm1.items (hullLoops boundary) }

/-- The constant canvas_manager.TAN45 = 1 (the code's height-slope factor). -/
def TAN45 : Q3 := 1

/-- Exact square root of a nonnegative rational, when it is rational. -/
def ratSqrt (r : ℚ) : Option ℚ :=
  if r < 0 then none
  else
    let sn := Q3.isqrtN r.num.toNat
    let sd := Q3.isqrtN r.den
    if sn * sn = r.num.toNat ∧ sd * sd = r.den then some ((sn : ℚ) / (sd : ℚ)) else none

/-- The nonnegative square root of `x` inside ℚ[√3], when it exists there
(every produced candidate is verified by squaring); otherwise 0.  For
`x = A + B√3` with `B ≠ 0` a root `u + v√3` must satisfy `2uv = B` and
`u² + 3v² = A`, so `u²` is a root of `4t² − 4At + 3B²`. -/
def sqrtQ3 (x : Q3) : Q3 :=
  if x.b = 0 then
    match ratSqrt x.a with
    | some u => ⟨u, 0⟩
    | none =>
        match ratSqrt (x.a / 3) with
        | some v => ⟨0, v⟩
        | none => 0
  else
    match ratSqrt (x.a ^ 2 - 3 * x.b ^ 2) with
    | none => 0
    | some d =>
        let cand := fun (r : ℚ) =>
          match ratSqrt r with
          | some u =>
              if u = 0 then none
              else
                let y : Q3 := ⟨u, x.b / (2 * u)⟩
                if y * y = x then some (if y.nonnegB then y else -y) else none
          | none => none
        match cand ((x.a + d) / 2) with
        | some y => y
        | none =>
            match cand ((x.a - d) / 2) with
            | some y => y
            | none => 0

/-- math.hypot on exact values: the Euclidean norm `√(dx² + dy²)`, computed
exactly inside ℚ[√3] (it lies there for every input arising in the verified
traces; outside ℚ[√3] the model returns 0). -/
def hypotQ3 (dx dy : Q3) : Q3 := sqrtQ3 (dx * dx + dy * dy)

/-- The child vertex `third_vertex(parent[i], parent[i+1], side)` of one
adjacent parent pair. -/
def child2 (side : ℤ) (pq : Pt2 × Pt2) : Pt2 := third_vertex pq.1 pq.2 side

/-- The slanted height of a child: `c_z = p_z ∓ L·TAN45` with
`L = hypot(c2d − p2d)` (LEFT = +1 sinks, RIGHT = −1 rises). -/
def childZ (side : ℤ) (p2 : Pt2) (p3 : Pt3) (c2 : Pt2) : Q3 :=
  let L := hypotQ3 (c2.1 - p2.1) (c2.2 - p2.2)
  if side = 1 then p3.2.2 - L * TAN45 else p3.2.2 + L * TAN45

/-- The aligned quadruples `((parent2d[i], parent2d[i+1]), (parent3d[i],
parent3d[i+1]))` the _make_next loop iterates over.  (The two rows always
have equal length in reachable states; on a shorter 3D row the source would
raise IndexError, while the zip truncates.) -/
def quadsOf (row2 : List Pt2) (row3 : List Pt3) : List ((Pt2 × Pt2) × (Pt3 × Pt3)) :=
  (row2.zip row2.tail).zip (row3.zip row3.tail)

/-- The 3D child of one quadruple. -/
def child3 (side : ℤ) (quad : (Pt2 × Pt2) × (Pt3 × Pt3)) : Pt3 :=
  let c2 := child2 side quad.1
  (c2.1, c2.2, childZ side quad.1.1 quad.2.1 c2)

/-- The children2d list built by _make_next. -/
def children2 (row2 : List Pt2) (side : ℤ) : List Pt2 :=
  (row2.zip row2.tail).map (child2 side)

/-- The children3d list built by _make_next. -/
def children3 (row2 : List Pt2) (row3 : List Pt3) (side : ℤ) : List Pt3 :=
  (quadsOf row2 row3).map (child3 side)

/-- The faces `(p3d, q3d, c3d)` _make_next appends to triangles_3d. -/
def faces3 (row2 : List Pt2) (row3 : List Pt3) (side : ℤ) : List (Pt3 × Pt3 × Pt3) :=
  (quadsOf row2 row3).map fun quad => (quad.2.1, quad.2.2, child3 side quad)

/-- The triangles _make_next draws (one draw_triangle per adjacent pair). -/
def triItems (items : List Item) (row2 : List Pt2) (side : ℤ) (tag : Tag) : List Item :=
  (row2.zip row2.tail).foldl
    (fun its pq => draw_triangle its pq.1 pq.2 (child2 side pq) tag) items

/-- The row line connecting consecutive children, drawn after the loop. -/
def rowLineItems (items : List Item) (ch : List Pt2) (tag : Tag) : List Item :=
  (ch.zip ch.tail).foldl
    (fun its ab => create_line its ab.1.1 ab.1.2 ab.2.1 ab.2.2 [tag, "row"]) items

/-- CanvasManager._make_next: build the n−1 children in 2D and 3D, draw the
2D triangles and the row line, append the 3D faces; returns the updated
manager together with (children2d, children3d). -/
def make_next (cm : CM) (row2 : List Pt2) (row3 : List Pt3) (side : ℤ) (tag : Tag) :
    CM × List Pt2 × List Pt3 :=
  let ch2 := children2 row2 side
  ({ cm with
      items := rowLineItems (triItems cm.items row2 side tag) ch2 tag,
      triangles_3d := cm.triangles_3d ++ faces3 row2 row3 side },
   ch2, children3 row2 row3 side)

/-- The left branch row grown by a BOTH step (the composite parent when the
branches are uninitialised). -/
def bothL2 (st : LayerState) (parent2d : List Pt2) : List Pt2 :=
  match st.left_branch with
  | none => parent2d
  | some xs => xs

/-- The right branch row grown by a BOTH step (keyed, like the source, on
`left_branch is None`). -/
def bothR2 (st : LayerState) (parent2d : List Pt2) : List Pt2 :=
  match st.left_branch with
  | none => parent2d
  | some _ => st.right_branch.getD []

/-- The left 3D branch snapshot used by a BOTH step. -/
def bothL3 (st : LayerState) (parent3d : List Pt3) : List Pt3 :=
  match st.left_branch with
  | none => parent3d
  | some _ => st.left3d.getD []

/-- The right 3D branch snapshot used by a BOTH step. -/
def bothR3 (st : LayerState) (parent3d : List Pt3) : List Pt3 :=
  match st.left_branch with
  | none => parent3d
  | some _ => st.right3d.getD []

/-- The `if not self.layers_3d` step of add_layer: on the very first grow the
seed row is materialised in 3D at z = 0; afterwards layers_3d is unchanged. -/
def seeded3d (cm : CM) : List (List Pt3) :=
  if cm.layers_3d = [] then [(cm.state.rows.headD []).map fun p => (p.1, p.2, (0 : Q3))]
  else cm.layers_3d

/-- CanvasManager.add_layer: no-op unless the last row has at least 2
points; otherwise lock the seed, materialise the seed 3D row at z = 0 on
the very first call, grow one step (two independent branch steps in BOTH
mode, concatenated left-then-right), push the new row and tag (clearing
redo), append the 3D row, and refresh hull and visibility. -/
def add_layer (cm : CM) (side : Side) : CM :=
  if cm.state.rows = [] then cm
  else if (cm.state.rows.getLastD []).length < 2 then cm
  else
    let cm1 : CM := { cm with state := { cm.state with seed_locked := true } }
    let tag := "ly" ++ toString cm1.state.tags.length
    let cm2 : CM := { cm1 with layers_3d := seeded3d cm1 }
    let parent2d := cm2.state.rows.getLastD []
    let parent3d := cm2.layers_3d.getLastD []
    if side = Side.BOTH then
      let lb := bothL2 cm2.state parent2d
      let rb := bothR2 cm2.state parent2d
      let l3p := bothL3 cm2.state parent3d
      let r3p := bothR3 cm2.state parent3d
      let m1 := make_next cm2 lb l3p 1 tag
      let m2 := make_next m1.1 rb r3p (-1) tag
      let st : LayerState :=
        { m2.1.state with left_branch := some m1.2.1, right_branch := some m2.2.1,
                          left3d := some m1.2.2, right3d := some m2.2.2 }
      let st2 := st.push (m1.2.1 ++ m2.2.1) tag
      update_visibility (update_hull
        { m2.1 with state := st2, layers_3d := m2.1.layers_3d ++ [m1.2.2 ++ m2.2.2] })
    else
      let sign : ℤ := if side = Side.LEFT then 1 else -1
      let m := make_next cm2 parent2d parent3d sign tag
      let st : LayerState :=
        { m.1.state with left_branch := none, right_branch := none,
                         left3d := none, right3d := none }
      let st2 := st.push m.2.1 tag
      update_visibility (update_hull
        { m.1 with state := st2, layers_3d := m.1.layers_3d ++ [m.2.2] })

/-- CanvasManager.undo_layer: pop the last 2D layer (no-op if only the seed
remains), hide its tag and add it to `undone`, pop the last 3D row and drop
every face whose apex height lies in that row's height set, then refresh
hull and visibility. -/
def undo_layer (cm : CM) : CM :=
  let pr := cm.state.pop
  match pr.1 with
  | none => cm
  | some tag =>
      let items := configTag cm.items tag true
      let st : LayerState :=
        { pr.2 with undone := if tag ∈ pr.2.undone then pr.2.undone else pr.2.undone ++ [tag] }
      let cmA : CM := { cm with state := st, items := items }
      let zvals := (cmA.layers_3d.getLastD []).map fun p => p.2.2
      let cmB : CM :=
        { cmA with
            layers_3d :=
              if cmA.layers_3d = [] then cmA.layers_3d else cmA.layers_3d.dropLast,
            triangles_3d :=
              if cmA.layers_3d = [] then cmA.triangles_3d
              else cmA.triangles_3d.filter fun tri => !(zvals.contains tri.2.2.2.2) }
      update_visibility (update_hull cmB)

/-- CanvasManager.redo_layer: re-push the most recently undone row and tag
(no-op on empty redo), un-hide the tag, then rebuild the 3D data exactly as
add_layer would, from rows[-2] and the current last 3D row, and append the
rebuilt 3D row; the 2D row itself comes from the redo buffer. -/
def redo_layer (cm : CM) (side : Side) : CM :=
  let pr := cm.state.redo_layer
  match pr.1 with
  | none => cm
  | some tag =>
      let st0 := { pr.2 with undone := pr.2.undone.erase tag }
      let items := configTag cm.items tag false
      let cm0 : CM := { cm with state := st0, items := items }
      let parent2d := cm0.state.rows.dropLast.getLastD []
      let parent3d := cm0.layers_3d.getLastD []
      if side = Side.BOTH then
        let lb := bothL2 cm0.state parent2d
        let rb := bothR2 cm0.state parent2d
        let l3p := bothL3 cm0.state parent3d
        let r3p := bothR3 cm0.state parent3d
        let m1 := make_next cm0 lb l3p 1 tag
        let m2 := make_next m1.1 rb r3p (-1) tag
        let st : LayerState :=
          { m2.1.state with left_branch := some m1.2.1, right_branch := some m2.2.1,
                            left3d := some m1.2.2, right3d := some m2.2.2 }
        update_visibility (update_hull
          { m2.1 with state := st, layers_3d := m2.1.layers_3d ++ [m1.2.2 ++ m2.2.2] })
      else
        let sign : ℤ := if side = Side.LEFT then 1 else -1
        let m := make_next cm0 parent2d parent3d sign tag
        let st : LayerState :=
          { m.1.state with left_branch := none, right_branch := none,
                           left3d := none, right3d := none }
        update_visibility (update_hull
          { m.1 with state := st, layers_3d := m.1.layers_3d ++ [m.2.2] })

/-- CanvasManager.on_click with the seed unlocked: create the seed row if
missing; a click within 3·DOT_R of an existing seed dot begins a drag (the
transient drag indices are not modelled, so the state is unchanged here);
otherwise append the new seed dot, draw it, draw the seed line to the
previous dot, and recompute the hull.  A click while seed-locked returns
immediately. -/
def on_click (cm : CM) (x y : Q3) : CM :=
  if cm.state.seed_locked then cm
  else
    let cm1 : CM :=
      if cm.state.rows = [] then { cm with state := { cm.state with rows := [[]] } } else cm
    let seeds := cm1.state.rows.headD []
    if seeds.any fun p =>
        Q3.leB ((x - p.1) * (x - p.1) + (y - p.2) * (y - p.2)) ⟨81, 0⟩ then
      cm1
    else
      let seeds2 := seeds ++ [(x, y)]
      let items := draw_point cm1.items x y "seed"
      let items2 :=
        if seeds ≠ [] then
          let p := seeds.getLastD (0, 0)
          create_line items p.1 p.2 x y ["seed", "row"]
        else items
      update_hull
        { cm1 with state := { cm1.state with rows := seeds2 :: cm1.state.rows.tail },
                   items := items2 }

/-! ## Distances and turns (for the §8 equilateral invariant) -/

/-- The squared Euclidean distance, inside ℚ[√3]. -/
def sqDistQ3 (p q : Pt2) : Q3 :=
  (q.1 - p.1) * (q.1 - p.1) + (q.2 - p.2) * (q.2 - p.2)

/-- The Euclidean distance between two canvas points, as a real number. -/
noncomputable def distR (p q : Pt2) : ℝ := Real.sqrt (sqDistQ3 p q).toReal

/-- The 2D cross product `(p−o) × (q−o)`: the signed turn o→p→q. -/
def crossQ3 (o p q : Pt2) : Q3 :=
  (p.1 - o.1) * (q.2 - o.2) - (p.2 - o.2) * (q.1 - o.1)

/-! ## Concrete traces

`cmSeed2` (seed dots at (0,0) and (100,0)) and `cmSeed3` (a third dot at
(200,0)) are built through on_click; the layer traces grow, undo and redo
them in the various modes. -/

def cmSeed2 : CM := on_click (on_click CM.init (qr 0) (qr 0)) (qr 100) (qr 0)

def cmSeed3 : CM := on_click cmSeed2 (qr 200) (qr 0)

def cmL1 : CM := add_layer cmSeed2 Side.LEFT

def cmL1u : CM := undo_layer cmL1

def cmL1ua : CM := add_layer cmL1u Side.LEFT

def cmB1 : CM := add_layer cmSeed2 Side.BOTH

def cmB1u : CM := undo_layer cmB1

def cmB1r : CM := redo_layer cmB1u Side.BOTH

def cmB3a : CM := add_layer cmSeed3 Side.BOTH

def cmB3b : CM := add_layer cmB3a Side.BOTH

/-! ## Basic facts about the model -/

theorem update_visibility_state (cm : CM) : (update_visibility cm).state = cm.state := rfl

theorem update_visibility_layers (cm : CM) :
    (update_visibility cm).layers_3d = cm.layers_3d := rfl

theorem update_visibility_tris (cm : CM) :
    (update_visibility cm).triangles_3d = cm.triangles_3d := rfl

theorem update_hull_state (cm : CM) : (update_hull cm).state = cm.state := by
  simp only [update_hull]
  split <;> rfl

theorem update_hull_layers (cm : CM) : (update_hull cm).layers_3d = cm.layers_3d := by
  simp only [update_hull]
  split <;> rfl

theorem update_hull_tris (cm : CM) : (update_hull cm).triangles_3d = cm.triangles_3d := by
  simp only [update_hull]
  split <;> rfl

theorem children2_length (row : List Pt2) (side : ℤ) :
    (children2 row side).length = row.length - 1 := by
  simp [children2, List.length_zip]

theorem children3_length (row2 : List Pt2) (row3 : List Pt3) (side : ℤ) :
    (children3 row2 row3 side).length = min (row2.length - 1) (row3.length - 1) := by
  simp [children3, quadsOf, List.length_zip]

theorem sub_eq_zero_q3 {x y : Q3} (h : x - y = 0) : x = y := by
  ext
  · have := congrArg Q3.a h; simp at this; linarith
  · have := congrArg Q3.b h; simp at this; linarith

/-- The rotated base has the base's length: both new sides of the
constructed triangle have the squared length of p→q (a ring identity in
ℚ[√3], using (√3)² = 3). -/
theorem third_vertex_equilateral (p q : Pt2) (s : ℤ) (hs : s = 1 ∨ s = -1) :
    sqDistQ3 q (third_vertex p q s) = sqDistQ3 p q ∧
    sqDistQ3 (third_vertex p q s) p = sqDistQ3 p q := by
  rcases hs with h | h <;> subst h <;>
    exact ⟨by ext <;> (simp [third_vertex, sqDistQ3]; ring),
           by ext <;> (simp [third_vertex, sqDistQ3]; ring)⟩

/-- The signed turn p→q→thirdVertex equals sin(60°·side) times the squared
base length. -/
theorem crossQ3_third_vertex (p q : Pt2) (s : ℤ) :
    crossQ3 p q (third_vertex p q s) = ⟨0, (s : ℚ) / 2⟩ * sqDistQ3 p q := by
  ext <;> (simp [third_vertex, crossQ3, sqDistQ3]; ring)

theorem toReal_sqDist_pos {p q : Pt2} (h : p ≠ q) : 0 < (sqDistQ3 p q).toReal := by
  have hv : q.1 - p.1 ≠ 0 ∨ q.2 - p.2 ≠ 0 := by
    by_contra hc
    push_neg at hc
    exact h (Prod.ext (sub_eq_zero_q3 hc.1).symm (sub_eq_zero_q3 hc.2).symm)
  have hexp : (sqDistQ3 p q).toReal =
      (q.1 - p.1).toReal ^ 2 + (q.2 - p.2).toReal ^ 2 := by
    simp [sqDistQ3]; ring
  rw [hexp]
  rcases hv with hv | hv
  · have hne : (q.1 - p.1).toReal ≠ 0 := fun hz => hv (Q3.toReal_eq_zero hz)
    have h1 : 0 < (q.1 - p.1).toReal ^ 2 :=
      (sq_nonneg _).lt_of_ne (Ne.symm (pow_ne_zero 2 hne))
    nlinarith [sq_nonneg (q.2 - p.2).toReal]
  · have hne : (q.2 - p.2).toReal ≠ 0 := fun hz => hv (Q3.toReal_eq_zero hz)
    have h1 : 0 < (q.2 - p.2).toReal ^ 2 :=
      (sq_nonneg _).lt_of_ne (Ne.symm (pow_ne_zero 2 hne))
    nlinarith [sq_nonneg (q.1 - p.1).toReal]

/-! ## Claim C4: the equilateral invariant of third_vertex -/

/-- C4: for every pair of distinct points p ≠ q and sign ∈ {+1, −1}, the
point third_vertex(p, q, sign) is at the same distance from p and from q as
distance(p, q) — an unscaled equilateral triangle — and the signed turn
p→q→third is positive for sign = +1 and negative for sign = −1. -/
theorem claim_C4 (p q : Pt2) (hpq : p ≠ q) (s : ℤ) (hs : s = 1 ∨ s = -1) :
    distR q (third_vertex p q s) = distR p q ∧
    distR (third_vertex p q s) p = distR p q ∧
    (s = 1 → 0 < (crossQ3 p q (third_vertex p q s)).toReal) ∧
    (s = -1 → (crossQ3 p q (third_vertex p q s)).toReal < 0) := by
  obtain ⟨h1, h2⟩ := third_vertex_equilateral p q s hs
  have hS := toReal_sqDist_pos hpq
  refine ⟨by simp only [distR, h1], by simp only [distR, h2], ?_, ?_⟩ <;> intro hsv <;> subst hsv <;>
    rw [crossQ3_third_vertex, Q3.toReal_mul]
  · have hc : (⟨0, ((1 : ℤ) : ℚ) / 2⟩ : Q3).toReal = Real.sqrt 3 / 2 := by
      simp [Q3.toReal]; ring
    rw [hc]
    exact mul_pos (by positivity) hS
  · have hc : (⟨0, ((-1 : ℤ) : ℚ) / 2⟩ : Q3).toReal = -(Real.sqrt 3 / 2) := by
      simp [Q3.toReal]; ring
    rw [hc]
    have hneg : -(Real.sqrt 3 / 2) < 0 := by
      have := Q3.sqrt3_pos
      linarith
    exact mul_neg_of_neg_of_pos hneg hS

/-- Witness for C4: p = (0,0), q = (1,0), sign = +1. -/
theorem claim_C4_witness :
    ((qr 0, qr 0) : Pt2) ≠ (qr 1, qr 0) ∧
    (distR (qr 1, qr 0) (third_vertex (qr 0, qr 0) (qr 1, qr 0) 1) =
        distR (qr 0, qr 0) (qr 1, qr 0) ∧
      distR (third_vertex (qr 0, qr 0) (qr 1, qr 0) 1) (qr 0, qr 0) =
        distR (qr 0, qr 0) (qr 1, qr 0) ∧
      ((1 : ℤ) = 1 →
        0 < (crossQ3 (qr 0, qr 0) (qr 1, qr 0)
              (third_vertex (qr 0, qr 0) (qr 1, qr 0) 1)).toReal) ∧
      ((1 : ℤ) = -1 →
        (crossQ3 (qr 0, qr 0) (qr 1, qr 0)
              (third_vertex (qr 0, qr 0) (qr 1, qr 0) 1)).toReal < 0)) :=
  ⟨by with_unfolding_all decide,
   claim_C4 (qr 0, qr 0) (qr 1, qr 0) (by with_unfolding_all decide) 1 (Or.inl rfl)⟩

/-! ## Claim C5: the two convex-hull routines and collinear points -/

/-- C5 counterexample: geometry.convex_hull keeps the collinear midpoint of
[(0,0), (1,0), (2,0)] (its pop condition is the strict `cross < 0`), so
collinear points do appear in its returned hull. -/
theorem claim_C5_counterexample :
    ((1 : ℚ), (0 : ℚ)) ∈ convex_hull [((0 : ℚ), (0 : ℚ)), (1, 0), (2, 0)] ∧
    crossQ ((0 : ℚ), (0 : ℚ)) (1, 0) (2, 0) = 0 := by
  constructor <;> with_unfolding_all decide

/-- C5 amended: geometry.convex_hull pops a provisional point only on a
strictly negative cross product, so collinear points can survive in its
output; inputs of fewer than 3 points are returned unchanged by both
routines; GUI.TriGrowthApp._convex_hull is the revision that pops on
`cross ≤ 0` and does exclude the collinear midpoint. -/
theorem claim_C5 :
    (∀ points : List PtQ, points.length < 3 → convex_hull points = points) ∧
    (∀ points : List PtQ, points.length < 3 → GUI_convex_hull points = points) ∧
    (∀ (p a b : PtQ) (rest : List PtQ), crossQ a b p < 0 →
        popChainLt p (b :: a :: rest) = popChainLt p (a :: rest)) ∧
    (∀ (p a b : PtQ) (rest : List PtQ), 0 ≤ crossQ a b p →
        popChainLt p (b :: a :: rest) = b :: a :: rest) ∧
    (∀ (p a b : PtQ) (rest : List PtQ), crossQ a b p ≤ 0 →
        popChainLe p (b :: a :: rest) = popChainLe p (a :: rest)) ∧
    GUI_convex_hull [((0 : ℚ), (0 : ℚ)), (1, 0), (2, 0)] = [(0, 0), (2, 0)] := by
  refine ⟨?_, ?_, ?_, ?_, ?_, by with_unfolding_all decide⟩
  · intro points h
    rcases points with _ | ⟨p, _ | ⟨q, _ | ⟨r, rest⟩⟩⟩ <;> first | rfl | (simp at h; omega)
  · intro points h
    rcases points with _ | ⟨p, _ | ⟨q, _ | ⟨r, rest⟩⟩⟩ <;> first | rfl | (simp at h; omega)
  · intro p a b rest h
    simp only [popChainLt]
    rw [if_pos h]
  · intro p a b rest h
    simp only [popChainLt]
    rw [if_neg (not_lt.mpr h)]
  · intro p a b rest h
    simp only [popChainLe]
    rw [if_pos h]

/-- Witness for C5: a 1-point input is returned unchanged and a pop fires
on a concrete right turn. -/
theorem claim_C5_witness :
    convex_hull [((5 : ℚ), (7 : ℚ))] = [(5, 7)] ∧
    popChainLt ((2 : ℚ), (-1 : ℚ)) [((1 : ℚ), (1 : ℚ)), ((0 : ℚ), (0 : ℚ))] =
      popChainLt ((2 : ℚ), (-1 : ℚ)) [((0 : ℚ), (0 : ℚ))] :=
  ⟨claim_C5.1 _ (by decide),
   claim_C5.2.2.1 _ _ _ _ (by with_unfolding_all decide)⟩

/-! ## Claim C6: the LEFT growth scenario on seed [(0,0), (100,0)] -/

/-- C6 counterexample: growLayer(LEFT) on seed [(0,0), (100,0)] yields the
child [(50, +50√3)] — the apex sits at y = +86.602…, not at the claimed
y = −86.602… = −50√3. -/
theorem claim_C6_counterexample :
    cmL1.state.rows.getLastD [] = [(qr 50, ⟨0, 50⟩)] ∧
    cmL1.state.rows.getLastD [] ≠ [(qr 50, ⟨0, -50⟩)] := by
  constructor <;> with_unfolding_all decide

/-- C6 amended: with sign = +1 for LEFT, the child generation is
[(50, +50√3)] = [(50, +86.602…)]: the apex has positive y, i.e. it lies
below the base in the canvas convention where positive y points down. -/
theorem claim_C6 :
    cmL1.state.rows.getLastD [] = [(qr 50, ⟨0, 50⟩)] ∧
    0 < (⟨0, 50⟩ : Q3).toReal := by
  refine ⟨by with_unfolding_all decide, ?_⟩
  simp only [Q3.toReal]
  have := Q3.sqrt3_pos
  push_cast
  nlinarith

/-! ## Claim C3: the boundary reconstructor on a single grown triangle -/

/-- C3 counterexample: after growing exactly one triangle (seed
[(0,0), (100,0)], growLayer(LEFT)), the edge-occurrence count holds only 2
edges — draw_triangle tags the base p→q as a 'row' line, not 'tri' — so the
boundary has fewer than 3 edges and no loop is produced, contradicting the
claimed 3 edges and single loop of length 4. -/
theorem claim_C3_counterexample :
    ¬ ((edge_cnt cmL1.items).length = 3 ∧
        (hullLoops (boundary_of cmL1.items)).length = 1) := by
  with_unfolding_all decide

/-- C3 amended: one grown triangle contributes exactly its two non-base
edges to the count, each with occurrence 1 (the base edge carries the 'row'
tag and is not counted); with only 2 boundary edges the reconstructor
outputs no loop and update_hull draws no 'hull' item. -/
theorem claim_C3 :
    edge_cnt cmL1.items =
      [((((50 : ℤ), (87 : ℤ)), ((100 : ℤ), (0 : ℤ))), 1),
       ((((0 : ℤ), (0 : ℤ)), ((50 : ℤ), (87 : ℤ))), 1)] ∧
    hullLoops (boundary_of cmL1.items) = [] ∧
    cmL1.items.filter (fun it => it.tags.contains "hull") = [] := by
  refine ⟨?_, ?_, ?_⟩ <;> with_unfolding_all decide

/-! ## Claims C7 and C8: silent no-ops and redo invalidation -/

theorem add_layer_noop (cm : CM) (side : Side)
    (h : cm.state.rows = [] ∨ (cm.state.rows.getLastD []).length < 2) :
    add_layer cm side = cm := by
  rcases h with h | h
  · simp only [add_layer, if_pos h]
  · by_cases hr : cm.state.rows = []
    · simp only [add_layer, if_pos hr]
    · simp only [add_layer, if_neg hr, if_pos h]

theorem undo_layer_noop (cm : CM) (h : cm.state.rows.length ≤ 1) :
    undo_layer cm = cm := by
  simp only [undo_layer, LayerState.pop, if_pos h]

theorem redo_layer_noop (cm : CM) (side : Side) (h : cm.state.redo = []) :
    redo_layer cm side = cm := by
  simp only [redo_layer, LayerState.redo_layer, h, List.getLast?_nil]

theorem on_click_noop (cm : CM) (x y : Q3) (h : cm.state.seed_locked = true) :
    on_click cm x y = cm := by
  simp only [on_click, h, if_true]

/-- C7: every invalid-operation-for-state — growing when the last generation
has fewer than 2 points, undoing when only the seed remains, redoing with an
empty redo buffer, and clicking (seed editing) while seed-locked — raises
nothing and leaves the whole state record (generations, tags, redo buffer,
hidden set, branch snapshots, 3D layers and faces, and even the canvas
items) unchanged. -/
theorem claim_C7 (cm : CM) (side : Side) (x y : Q3) :
    ((cm.state.rows = [] ∨ (cm.state.rows.getLastD []).length < 2) →
        add_layer cm side = cm) ∧
    (cm.state.rows.length ≤ 1 → undo_layer cm = cm) ∧
    (cm.state.redo = [] → redo_layer cm side = cm) ∧
    (cm.state.seed_locked = true → on_click cm x y = cm) :=
  ⟨add_layer_noop cm side, undo_layer_noop cm,
   redo_layer_noop cm side, on_click_noop cm x y⟩

/-- Witness for C7: the four no-ops at concrete states (the fresh manager,
and a seed-locked manager for the click case). -/
theorem claim_C7_witness :
    (add_layer CM.init Side.LEFT = CM.init ∧
      undo_layer CM.init = CM.init ∧
      redo_layer CM.init Side.BOTH = CM.init) ∧
    on_click { CM.init with
                state := { CM.init.state with seed_locked := true } } (qr 1) (qr 2) =
      { CM.init with state := { CM.init.state with seed_locked := true } } :=
  ⟨⟨(claim_C7 CM.init Side.LEFT (qr 0) (qr 0)).1 (Or.inl rfl),
    (claim_C7 CM.init Side.LEFT (qr 0) (qr 0)).2.1 (by decide),
    (claim_C7 CM.init Side.BOTH (qr 0) (qr 0)).2.2.1 rfl⟩,
   (claim_C7 { CM.init with state := { CM.init.state with seed_locked := true } }
      Side.LEFT (qr 1) (qr 2)).2.2.2 rfl⟩

theorem add_layer_clears_redo (cm : CM) (side : Side) (h1 : ¬ cm.state.rows = [])
    (h2 : ¬ (cm.state.rows.getLastD []).length < 2) :
    (add_layer cm side).state.redo = [] := by
  simp only [add_layer, if_neg h1, if_neg h2]
  by_cases hb : side = Side.BOTH
  · simp only [if_pos hb]
    rw [update_visibility_state, update_hull_state]
    rfl
  · simp only [if_neg hb]
    rw [update_visibility_state, update_hull_state]
    rfl


/-- C8: whenever growLayer actually pushes a new generation (its guard
passes), the redo buffer of the resulting state is empty — LayerState.push
clears it — and consequently an immediate redo (in any mode) is a no-op, so
generations undone before the grow can never be restored. -/
theorem claim_C8 (cm : CM) (side side2 : Side) (h1 : cm.state.rows ≠ [])
    (h2 : 2 ≤ (cm.state.rows.getLastD []).length) :
    (add_layer cm side).state.redo = [] ∧
    redo_layer (add_layer cm side) side2 = add_layer cm side := by
  have hr := add_layer_clears_redo cm side h1 (by omega)
  exact ⟨hr, redo_layer_noop _ side2 hr⟩

/-- Witness for C8: grow LEFT on the two-dot seed after an undo left a
non-empty redo buffer; the new state has an empty redo buffer and redo does
nothing.  (cmL1u is undo of the first grown layer, so its redo buffer is
non-empty; growing again discards it.) -/
theorem claim_C8_witness :
    cmL1u.state.redo ≠ [] ∧
    cmL1ua.state.redo = [] ∧
    redo_layer cmL1ua Side.BOTH = cmL1ua :=
  ⟨by with_unfolding_all decide,
   (claim_C8 cmL1u Side.LEFT Side.BOTH (by with_unfolding_all decide)
      (by with_unfolding_all decide)).1,
   (claim_C8 cmL1u Side.LEFT Side.BOTH (by with_unfolding_all decide)
      (by with_unfolding_all decide)).2⟩

/-! ## Claim C9: hidden tags versus the tags of active generations -/

/-- C9 (refuting trace): grow LEFT on the two-dot seed, undo it, grow LEFT
again.  The new generation is pushed with tag 'ly0' = 'ly' + len(tags),
which is still in the hidden set left behind by the undo (add_layer never
removes it), so the active tag list and the hidden set intersect and every
canvas item of the freshly grown layer ends up hidden by the visibility
pass. -/
theorem claim_C9 :
    cmL1ua.state.tags = ["ly0"] ∧
    "ly0" ∈ cmL1ua.state.undone ∧
    (cmL1ua.items.all fun it => !(it.tags.contains "ly0") || it.hidden) = true ∧
    (cmL1ua.items.filter fun it => it.tags.contains "ly0") ≠ [] := by
  refine ⟨?_, ?_, ?_, ?_⟩ <;> with_unfolding_all decide

/-! ## Claim C10: termination of the boundary-loop walk -/

/-- Every neighbour relation the walk can follow yields an edge of the
adjacency map. -/
theorem mem_adjGet_edge {adj : List (IPt × List IPt)} {v n : IPt}
    (h : n ∈ adjGet adj v) : canonEdge v n ∈ edgesOfAdj adj := by
  unfold adjGet at h
  cases hf : adj.find? fun vn => vn.1 == v with
  | none => rw [hf] at h; simp at h
  | some vn =>
      rw [hf] at h
      have hmem := List.mem_of_find?_eq_some hf
      have hv : vn.1 = v := by
        have := List.find?_some hf
        simpa using this
      subst hv
      unfold edgesOfAdj
      exact List.mem_flatMap.mpr ⟨vn, hmem, List.mem_map.mpr ⟨n, h, rfl⟩⟩

theorem filter_length_mono {α : Type} (p q : α → Bool) (L : List α)
    (h : ∀ a, p a = true → q a = true) :
    (L.filter p).length ≤ (L.filter q).length := by
  induction L with
  | nil => simp
  | cons a t ih =>
      cases hp : p a with
      | true =>
          rw [List.filter_cons_of_pos hp, List.filter_cons_of_pos (h a hp)]
          simpa using ih
      | false =>
          rw [List.filter_cons_of_neg (by simp [hp])]
          cases hq : q a with
          | true =>
              rw [List.filter_cons_of_pos hq]
              exact Nat.le_succ_of_le ih
          | false =>
              rw [List.filter_cons_of_neg (by simp [hq])]
              exact ih

/-- Filtering out one more element that is present and not yet excluded
strictly shrinks the filtered length. -/
theorem filter_length_lt {α : Type} [BEq α] [LawfulBEq α] (L visited : List α) (k : α)
    (hkL : k ∈ L) (hkv : visited.contains k = false) :
    (L.filter fun e => !((k :: visited).contains e)).length <
      (L.filter fun e => !(visited.contains e)).length := by
  have hmono : ∀ e, (!((k :: visited).contains e)) = true → (!(visited.contains e)) = true := by
    intro e he
    rw [Bool.not_eq_true'] at he ⊢
    rw [List.contains_cons, Bool.or_eq_false_iff] at he
    exact he.2
  induction L with
  | nil => simp at hkL
  | cons a t ih =>
      by_cases hak : a = k
      · subst hak
        have h1 : ((a :: visited).contains a) = true := by simp
        rw [List.filter_cons_of_neg (by rw [h1]; simp),
            List.filter_cons_of_pos (by rw [hkv]; rfl)]
        have := filter_length_mono (fun e => !((a :: visited).contains e))
          (fun e => !(visited.contains e)) t hmono
        simp only [List.length_cons]
        omega
      · have hkt : k ∈ t := by
          rcases List.mem_cons.mp hkL with h | h
          · exact absurd h.symm hak
          · exact h
        have hcc : ((k :: visited).contains a) = (visited.contains a) := by
          rw [List.contains_cons, beq_eq_false_iff_ne.mpr hak, Bool.false_or]
        cases hva : visited.contains a with
        | true =>
            rw [List.filter_cons_of_neg (by rw [hcc, hva]; simp),
                List.filter_cons_of_neg (by rw [hva]; simp)]
            exact ih hkt
        | false =>
            rw [List.filter_cons_of_pos (by rw [hcc, hva]; rfl),
                List.filter_cons_of_pos (by rw [hva]; rfl)]
            simp only [List.length_cons]
            have := ih hkt
            omega

/-- The number of adjacency edges not yet visited. -/
def unvisited (adj : List (IPt × List IPt)) (visited : List IEdge) : ℕ :=
  ((edgesOfAdj adj).filter fun e => !(visited.contains e)).length

/-- Each productive walk iteration strictly shrinks the unvisited count. -/
theorem unvisited_lt {adj : List (IPt × List IPt)} {visited : List IEdge} {k : IEdge}
    (hkL : k ∈ edgesOfAdj adj) (hkv : visited.contains k = false) :
    unvisited adj (k :: visited) < unvisited adj visited :=
  filter_length_lt (edgesOfAdj adj) visited k hkL hkv

/-- Fuel-irrelevance of the loop walk: any two fuels exceeding the number of
unvisited adjacency edges produce the same walk result, because every
iteration either exits or marks a previously unvisited edge as visited. -/
theorem walkLoop_fuel_stable (adj : List (IPt × List IPt)) :
    ∀ (f1 f2 : ℕ) (visited : List IEdge) (loop : List IPt) (start curr : IPt),
      unvisited adj visited < f1 → unvisited adj visited < f2 →
      walkLoop adj f1 visited loop start curr = walkLoop adj f2 visited loop start curr := by
  intro f1
  induction f1 with
  | zero => intro f2 visited loop start curr h1 _; omega
  | succ a ih =>
      intro f2 visited loop start curr h1 h2
      cases f2 with
      | zero => omega
      | succ b =>
          simp only [walkLoop]
          cases hf : (adjGet adj curr).find? fun n => !(visited.contains (canonEdge curr n)) with
          | none => rfl
          | some n =>
              have hp : (!(visited.contains (canonEdge curr n))) = true := by
                have := List.find?_some hf
                simpa using this
              have hmem : n ∈ adjGet adj curr := List.mem_of_find?_eq_some hf
              have hke : canonEdge curr n ∈ edgesOfAdj adj := mem_adjGet_edge hmem
              have hkv : visited.contains (canonEdge curr n) = false := by
                simpa using hp
              have hlt := unvisited_lt hke hkv
              by_cases hns : n = start
              · simp only [if_pos hns]
              · simp only [if_neg hns]
                exact ih b (canonEdge curr n :: visited) (loop ++ [n]) start n
                  (by omega) (by omega)

/-- C10: the inner walk of the boundary reconstructor performs at most one
step per boundary edge — every iteration either exits or marks a previously
unvisited edge — so any fuel beyond the adjacency-edge count changes
nothing: the walk, and hence the loop reconstruction (a total function in
this model, run with exactly that fuel by hullLoops), is a total function of
the boundary edge set. -/
theorem claim_C10 (boundary : List IEdge) (f : ℕ) (visited : List IEdge)
    (loop : List IPt) (start curr : IPt)
    (hf : (edgesOfAdj (adj_of boundary)).length < f) :
    walkLoop (adj_of boundary) f visited loop start curr =
      walkLoop (adj_of boundary) ((edgesOfAdj (adj_of boundary)).length + 1)
        visited loop start curr := by
  have hb : unvisited (adj_of boundary) visited ≤ (edgesOfAdj (adj_of boundary)).length :=
    List.length_filter_le _ _
  exact walkLoop_fuel_stable (adj_of boundary) f _ visited loop start curr
    (by omega) (by omega)

/-- Witness for C10: on the single boundary edge (0,0)–(0,1), any generous
fuel gives the same walk as the canonical fuel. -/
theorem claim_C10_witness :
    (edgesOfAdj (adj_of [(((0 : ℤ), (0 : ℤ)), ((0 : ℤ), (1 : ℤ)))])).length < 50 ∧
    walkLoop (adj_of [(((0 : ℤ), (0 : ℤ)), ((0 : ℤ), (1 : ℤ)))]) 50 [] [((0 : ℤ), (0 : ℤ))]
        ((0 : ℤ), (0 : ℤ)) ((0 : ℤ), (0 : ℤ)) =
      walkLoop (adj_of [(((0 : ℤ), (0 : ℤ)), ((0 : ℤ), (1 : ℤ)))])
        ((edgesOfAdj (adj_of [(((0 : ℤ), (0 : ℤ)), ((0 : ℤ), (1 : ℤ)))])).length + 1) []
        [((0 : ℤ), (0 : ℤ))] ((0 : ℤ), (0 : ℤ)) ((0 : ℤ), (0 : ℤ)) :=
  ⟨by with_unfolding_all decide,
   claim_C10 [(((0 : ℤ), (0 : ℤ)), ((0 : ℤ), (1 : ℤ)))] 50 [] [((0 : ℤ), (0 : ℤ))]
     ((0 : ℤ), (0 : ℤ)) ((0 : ℤ), (0 : ℤ)) (by with_unfolding_all decide)⟩

/-! ## Claim C2: the generation length law -/

/-- Explicit form of the LayerState after a successful single-direction
add_layer. -/
theorem add_layer_single_state (cm : CM) (side : Side) (h1 : ¬ cm.state.rows = [])
    (h2 : ¬ (cm.state.rows.getLastD []).length < 2) (hb : ¬ side = Side.BOTH) :
    (add_layer cm side).state =
      { cm.state with
          rows := cm.state.rows ++
            [children2 (cm.state.rows.getLastD []) (if side = Side.LEFT then 1 else -1)],
          tags := cm.state.tags ++ ["ly" ++ toString cm.state.tags.length],
          redo := [],
          left_branch := none, right_branch := none, left3d := none, right3d := none,
          seed_locked := true } := by
  simp only [add_layer, if_neg h1, if_neg h2, if_neg hb]
  rw [update_visibility_state, update_hull_state]
  rfl

/-- The composite row pushed by a successful BOTH add_layer: the left-branch
children followed by the right-branch children. -/
theorem add_layer_both_rows (cm : CM) (h1 : ¬ cm.state.rows = [])
    (h2 : ¬ (cm.state.rows.getLastD []).length < 2) :
    (add_layer cm Side.BOTH).state.rows =
      cm.state.rows ++
        [children2 (bothL2 cm.state (cm.state.rows.getLastD [])) 1 ++
          children2 (bothR2 cm.state (cm.state.rows.getLastD [])) (-1)] := by
  simp only [add_layer, if_neg h1, if_neg h2]
  rw [if_pos trivial, update_visibility_state, update_hull_state]
  rfl

/-- C2 amended: a successful single-direction grow of a last generation of
length N ≥ 2 pushes a child of exactly N − 1 points; a successful BOTH grow
pushes the concatenation of the two branch children, whose length is
(len(leftBranch) − 1) + (len(rightBranch) − 1) where the branches are the
rows the dual step actually grows (the composite parent itself only on the
first dual call after a reset — afterwards each branch is its own previous
output, not the composite). -/
theorem claim_C2 (cm : CM) (side : Side) (h1 : cm.state.rows ≠ [])
    (h2 : 2 ≤ (cm.state.rows.getLastD []).length) :
    ((side = Side.LEFT ∨ side = Side.RIGHT) →
      ((add_layer cm side).state.rows.getLastD []).length =
        (cm.state.rows.getLastD []).length - 1) ∧
    (side = Side.BOTH →
      ((add_layer cm side).state.rows.getLastD []).length =
        ((bothL2 cm.state (cm.state.rows.getLastD [])).length - 1) +
        ((bothR2 cm.state (cm.state.rows.getLastD [])).length - 1)) := by
  constructor
  · intro hs
    have hb : ¬ side = Side.BOTH := by
      rcases hs with h | h <;> subst h <;> simp
    have hst := add_layer_single_state cm side h1 (by omega) hb
    have hrows := congrArg LayerState.rows hst
    simp only at hrows
    rw [hrows, List.getLastD_concat, children2_length]
  · intro hs
    subst hs
    rw [add_layer_both_rows cm h1 (by omega), List.getLastD_concat]
    simp [children2_length]

/-- Witness for C2: growing the two-dot seed LEFT yields a 1-point child. -/
theorem claim_C2_witness :
    (cmSeed2.state.rows.getLastD []).length = 2 ∧
    ((add_layer cmSeed2 Side.LEFT).state.rows.getLastD []).length =
      (cmSeed2.state.rows.getLastD []).length - 1 :=
  ⟨by with_unfolding_all decide,
   (claim_C2 cmSeed2 Side.LEFT (by with_unfolding_all decide)
      (by with_unfolding_all decide)).1 (Or.inl rfl)⟩

/-- C2 counterexample: after two consecutive BOTH grows on the three-dot
seed, the previous (composite) generation has 4 points but the new one has
2, not the claimed 2·(4−1) = 6: the branches advance from their own previous
outputs, not from the composite row. -/
theorem claim_C2_counterexample :
    (cmB3a.state.rows.getLastD []).length = 4 ∧
    (cmB3b.state.rows.getLastD []).length = 2 ∧
    ¬ ((cmB3b.state.rows.getLastD []).length =
        2 * ((cmB3a.state.rows.getLastD []).length - 1)) := by
  refine ⟨?_, ?_, ?_⟩ <;> with_unfolding_all decide

/-! ## Claim C1: the undo–redo round trip -/

/-- Explicit 3D rows after a successful single-direction add_layer. -/
theorem add_layer_single_layers (cm : CM) (side : Side) (h1 : ¬ cm.state.rows = [])
    (h2 : ¬ (cm.state.rows.getLastD []).length < 2) (hb : ¬ side = Side.BOTH) :
    (add_layer cm side).layers_3d =
      seeded3d cm ++
        [children3 (cm.state.rows.getLastD []) ((seeded3d cm).getLastD [])
          (if side = Side.LEFT then 1 else -1)] := by
  simp only [add_layer, if_neg h1, if_neg h2, if_neg hb]
  rw [update_visibility_layers, update_hull_layers]
  rfl

/-- Explicit face list after a successful single-direction add_layer. -/
theorem add_layer_single_tris (cm : CM) (side : Side) (h1 : ¬ cm.state.rows = [])
    (h2 : ¬ (cm.state.rows.getLastD []).length < 2) (hb : ¬ side = Side.BOTH) :
    (add_layer cm side).triangles_3d =
      cm.triangles_3d ++
        faces3 (cm.state.rows.getLastD []) ((seeded3d cm).getLastD [])
          (if side = Side.LEFT then 1 else -1) := by
  simp only [add_layer, if_neg h1, if_neg h2, if_neg hb]
  rw [update_visibility_tris, update_hull_tris]
  rfl

/-- Explicit LayerState after a (non-trivial) undo_layer. -/
theorem undo_layer_state (cm : CM) (hlen : ¬ cm.state.rows.length ≤ 1) :
    (undo_layer cm).state =
      { rows := cm.state.rows.dropLast,
        tags := cm.state.tags.dropLast,
        redo := cm.state.redo ++ [(cm.state.rows.getLastD [], cm.state.tags.getLastD "")],
        undone :=
          if cm.state.tags.getLastD "" ∈ cm.state.undone then cm.state.undone
          else cm.state.undone ++ [cm.state.tags.getLastD ""],
        left_branch := cm.state.left_branch, right_branch := cm.state.right_branch,
        left3d := cm.state.left3d, right3d := cm.state.right3d,
        seed_locked :=
          if cm.state.rows.dropLast.length = 1 then false else cm.state.seed_locked } := by
  simp only [undo_layer, LayerState.pop, if_neg hlen, update_visibility_state,
    update_hull_state]

/-- Explicit 3D rows after a (non-trivial) undo_layer. -/
theorem undo_layer_layers (cm : CM) (hlen : ¬ cm.state.rows.length ≤ 1) :
    (undo_layer cm).layers_3d =
      if cm.layers_3d = [] then cm.layers_3d else cm.layers_3d.dropLast := by
  simp only [undo_layer, LayerState.pop, if_neg hlen, update_visibility_layers,
    update_hull_layers]

/-- Explicit face list after a (non-trivial) undo_layer. -/
theorem undo_layer_tris (cm : CM) (hlen : ¬ cm.state.rows.length ≤ 1) :
    (undo_layer cm).triangles_3d =
      if cm.layers_3d = [] then cm.triangles_3d
      else
        cm.triangles_3d.filter fun tri =>
          !(((cm.layers_3d.getLastD []).map fun p => p.2.2).contains tri.2.2.2.2) := by
  simp only [undo_layer, LayerState.pop, if_neg hlen, update_visibility_tris,
    update_hull_tris]

/-- Explicit LayerState after a (non-trivial) single-direction redo_layer. -/
theorem redo_layer_single_state (cm : CM) (side : Side) (hb : ¬ side = Side.BOTH)
    (row : List Pt2) (tag : Tag) (hrd : cm.state.redo.getLast? = some (row, tag)) :
    (redo_layer cm side).state =
      { rows := cm.state.rows ++ [row], tags := cm.state.tags ++ [tag],
        redo := cm.state.redo.dropLast,
        undone := cm.state.undone.erase tag,
        left_branch := none, right_branch := none, left3d := none, right3d := none,
        seed_locked := true } := by
  simp only [redo_layer, LayerState.redo_layer, hrd, if_neg hb, update_visibility_state,
    update_hull_state]
  rfl

/-- Explicit 3D rows after a (non-trivial) single-direction redo_layer: the
3D data is regenerated from rows[-2] and the current last 3D row. -/
theorem redo_layer_single_layers (cm : CM) (side : Side) (hb : ¬ side = Side.BOTH)
    (row : List Pt2) (tag : Tag) (hrd : cm.state.redo.getLast? = some (row, tag)) :
    (redo_layer cm side).layers_3d =
      cm.layers_3d ++
        [children3 ((cm.state.rows ++ [row]).dropLast.getLastD []) (cm.layers_3d.getLastD [])
          (if side = Side.LEFT then 1 else -1)] := by
  simp only [redo_layer, LayerState.redo_layer, hrd, if_neg hb, update_visibility_layers,
    update_hull_layers]
  rfl

/-- Explicit face list after a (non-trivial) single-direction redo_layer. -/
theorem redo_layer_single_tris (cm : CM) (side : Side) (hb : ¬ side = Side.BOTH)
    (row : List Pt2) (tag : Tag) (hrd : cm.state.redo.getLast? = some (row, tag)) :
    (redo_layer cm side).triangles_3d =
      cm.triangles_3d ++
        faces3 ((cm.state.rows ++ [row]).dropLast.getLastD []) (cm.layers_3d.getLastD [])
          (if side = Side.LEFT then 1 else -1) := by
  simp only [redo_layer, LayerState.redo_layer, hrd, if_neg hb, update_visibility_tris,
    update_hull_tris]
  rfl

/-- The apex of every face of a growth step is one of the step's 3D
children. -/
theorem faces3_apex_mem (row2 : List Pt2) (row3 : List Pt3) (side : ℤ) :
    ∀ f ∈ faces3 row2 row3 side, f.2.2 ∈ children3 row2 row3 side := by
  intro f hf
  simp only [faces3, List.mem_map] at hf
  obtain ⟨q, hq, rfl⟩ := hf
  simp only [children3, List.mem_map]
  exact ⟨q, hq, rfl⟩

/-- C1 counterexample: in BOTH mode the round trip fails.  On the two-dot
seed, grow BOTH, undo, redo BOTH: the 2D row and its tag are restored, but
the branch snapshots were never rolled back by the undo, so the redo grows
the (one-point) branches instead of rebuilding the undone layer — the
re-appended 3D row is empty and the two removed faces are not
reconstructed. -/
theorem claim_C1_counterexample :
    cmB1r.state.rows = cmB1.state.rows ∧
    cmB1r.state.tags = cmB1.state.tags ∧
    cmB1.layers_3d.getLastD [] =
      [(qr 50, ⟨0, 50⟩, qr (-100)), (qr 50, ⟨0, -50⟩, qr 100)] ∧
    cmB1r.layers_3d.getLastD [] = [] ∧
    cmB1r.layers_3d ≠ cmB1.layers_3d ∧
    cmB1.triangles_3d.length = 2 ∧
    cmB1r.triangles_3d = [] := by
  refine ⟨?_, ?_, ?_, ?_, ?_, ?_, ?_⟩ <;> with_unfolding_all decide

/-- C1 amended: in a single-direction mode held fixed across the grow and
the redo, and provided (i) the freshly pushed tag is not already in the
hidden set and (ii) no pre-existing face has its apex height in the new
layer's height set (so the undo removes exactly the new layer's faces),
undo(); redo() after a successful grow restores the entire LayerState (2D
points, tag, redo stack, hidden set, branch snapshots, seed lock) and
rebuilds the 3D rows and faces exactly equal to those removed. -/
theorem claim_C1 (cm : CM) (side : Side) (hside : side = Side.LEFT ∨ side = Side.RIGHT)
    (h1 : cm.state.rows ≠ [])
    (h2 : 2 ≤ (cm.state.rows.getLastD []).length)
    (htag : ("ly" ++ toString cm.state.tags.length) ∉ cm.state.undone)
    (hz : ∀ f ∈ cm.triangles_3d,
        f.2.2.2.2 ∉
          (children3 (cm.state.rows.getLastD []) ((seeded3d cm).getLastD [])
              (if side = Side.LEFT then 1 else -1)).map fun p => p.2.2) :
    (redo_layer (undo_layer (add_layer cm side)) side).state =
        (add_layer cm side).state ∧
    (redo_layer (undo_layer (add_layer cm side)) side).layers_3d =
        (add_layer cm side).layers_3d ∧
    (redo_layer (undo_layer (add_layer cm side)) side).triangles_3d =
        (add_layer cm side).triangles_3d := by
  have hb : ¬ side = Side.BOTH := by rcases hside with h | h <;> subst h <;> simp
  have h2' : ¬ (cm.state.rows.getLastD []).length < 2 := by omega
  have hstA := add_layer_single_state cm side h1 h2' hb
  have hlayA := add_layer_single_layers cm side h1 h2' hb
  have htriA := add_layer_single_tris cm side h1 h2' hb
  have hRlen : cm.state.rows.length ≠ 0 := fun h => h1 (List.length_eq_zero.mp h)
  have hlenA : ¬ (add_layer cm side).state.rows.length ≤ 1 := by
    rw [hstA]
    simp only [List.length_append, List.length_cons, List.length_nil]
    omega
  have hl3A : ¬ (add_layer cm side).layers_3d = [] := by
    rw [hlayA]
    simp
  -- the state after undo
  have hstU := undo_layer_state (add_layer cm side) hlenA
  rw [hstA] at hstU
  simp only [List.dropLast_concat, List.getLastD_concat, List.nil_append] at hstU
  rw [if_neg htag] at hstU
  -- the 3D rows after undo
  have hlayU := undo_layer_layers (add_layer cm side) hlenA
  rw [hlayA, if_neg (by simp : ¬ (seeded3d cm ++
        [children3 (cm.state.rows.getLastD []) ((seeded3d cm).getLastD [])
          (if side = Side.LEFT then 1 else -1)] = [])),
      List.dropLast_concat] at hlayU
  -- the faces after undo
  have htriU := undo_layer_tris (add_layer cm side) hlenA
  rw [hlayA, htriA, if_neg (by simp : ¬ (seeded3d cm ++
        [children3 (cm.state.rows.getLastD []) ((seeded3d cm).getLastD [])
          (if side = Side.LEFT then 1 else -1)] = [])),
      List.getLastD_concat, List.filter_append] at htriU
  have hkeep : cm.triangles_3d.filter (fun tri =>
      !(((children3 (cm.state.rows.getLastD []) ((seeded3d cm).getLastD [])
            (if side = Side.LEFT then 1 else -1)).map fun p => p.2.2).contains
          tri.2.2.2.2)) = cm.triangles_3d := by
    rw [List.filter_eq_self]
    intro f hf
    have := hz f hf
    simpa using this
  have hdrop : (faces3 (cm.state.rows.getLastD []) ((seeded3d cm).getLastD [])
        (if side = Side.LEFT then 1 else -1)).filter (fun tri =>
      !(((children3 (cm.state.rows.getLastD []) ((seeded3d cm).getLastD [])
            (if side = Side.LEFT then 1 else -1)).map fun p => p.2.2).contains
          tri.2.2.2.2)) = [] := by
    rw [List.filter_eq_nil_iff]
    intro f hf
    have happ := faces3_apex_mem _ _ _ f hf
    simp only [Bool.not_eq_true, Bool.not_eq_false]
    have : f.2.2.2.2 ∈ (children3 (cm.state.rows.getLastD []) ((seeded3d cm).getLastD [])
        (if side = Side.LEFT then 1 else -1)).map fun p => p.2.2 :=
      List.mem_map_of_mem _ happ
    simpa using this
  rw [hkeep, hdrop, List.append_nil] at htriU
  -- the redo pops exactly the undone entry
  have hrd : (undo_layer (add_layer cm side)).state.redo.getLast? =
      some (children2 (cm.state.rows.getLastD []) (if side = Side.LEFT then 1 else -1),
        "ly" ++ toString cm.state.tags.length) := by
    rw [hstU]
    rfl
  have hstT := redo_layer_single_state (undo_layer (add_layer cm side)) side hb _ _ hrd
  have hlayT := redo_layer_single_layers (undo_layer (add_layer cm side)) side hb _ _ hrd
  have htriT := redo_layer_single_tris (undo_layer (add_layer cm side)) side hb _ _ hrd
  rw [hstU] at hstT hlayT htriT
  rw [hlayU] at hlayT htriT
  rw [htriU] at htriT
  simp only [List.dropLast_concat, List.getLastD_concat] at hlayT htriT
  constructor
  · rw [hstT, hstA]
    simp only [List.dropLast_single]
    congr 1
    rw [List.erase_append_right _ htag]
    simp
  constructor
  · rw [hlayT, hlayA]
  · rw [htriT, htriA]

/-- Witness for C1: the round trip after growing the two-dot seed LEFT. -/
theorem claim_C1_witness :
    (redo_layer (undo_layer (add_layer cmSeed2 Side.LEFT)) Side.LEFT).state =
        (add_layer cmSeed2 Side.LEFT).state ∧
    (redo_layer (undo_layer (add_layer cmSeed2 Side.LEFT)) Side.LEFT).layers_3d =
        (add_layer cmSeed2 Side.LEFT).layers_3d ∧
    (redo_layer (undo_layer (add_layer cmSeed2 Side.LEFT)) Side.LEFT).triangles_3d =
        (add_layer cmSeed2 Side.LEFT).triangles_3d :=
  claim_C1 cmSeed2 Side.LEFT (Or.inl rfl) (by with_unfolding_all decide)
    (by with_unfolding_all decide) (by with_unfolding_all decide)
    (by with_unfolding_all decide)

end TriGrowth
